import Mathlib

/-!
# Verification of the shared-data segmented shared-memory allocator

A shallow embedding of the `shared-data` Rust crate: the packed 64-bit
shared-address representation, its atomic fetch-add primitive, the
bump allocator (`alloc_bytes` / `alloc_shmem`), the three-state
`SharedOption` cell, the growable MPMC channel (`try_send` / `try_recv`),
and the `SharedVec` deref fallback.

Machine integers are modelled as `Nat` with explicit `% 2^w` where the
source relies on wrapping; fallible code returns `Option`/`Except`.
The little-endian field layout of `SharedAddress` is used (the
big-endian layout is the mirror image chosen so that the same word
arithmetic applies).
-/

namespace SharedData

/-- Word width of the packed address. -/
def U64 : Nat := 2 ^ 64

/-- `SharedAddress` (lib.rs little-endian layout `#[repr(C)]`):
`object_offset : u32` (bits 0..31), `padding : u8` (bits 32..39),
`object_size : u8` (bits 40..47), `shmem_id : u16` (bits 48..63).
Fields are raw numeric values of the Rust fields. -/
structure SharedAddress where
  objectOffset : Nat
  padding : Nat
  objectSize : Nat
  shmemId : Nat
deriving Repr, DecidableEq

/-- The Rust field types bound each field. -/
def SharedAddress.wf (a : SharedAddress) : Prop :=
  a.objectOffset < 2 ^ 32 ∧ a.padding < 2 ^ 8 ∧ a.objectSize < 2 ^ 8 ∧ a.shmemId < 2 ^ 16

instance (a : SharedAddress) : Decidable a.wf := by
  unfold SharedAddress.wf; infer_instance

/-- `impl From<SharedAddress> for u64` (transmute on the little-endian layout):
pack the four fields into one 64-bit word. -/
def SharedAddress.toU64 (a : SharedAddress) : Nat :=
  a.objectOffset + a.padding * 2 ^ 32 + a.objectSize * 2 ^ 40 + a.shmemId * 2 ^ 48

/-- Bits 0..31 of a packed word (the `object_offset` field). -/
def offField (w : Nat) : Nat := w % 2 ^ 32

/-- Bits 32..39 of a packed word (the `padding` field). -/
def padField (w : Nat) : Nat := w / 2 ^ 32 % 2 ^ 8

/-- Bits 40..47 of a packed word (the `object_size` / `shmem_size` field). -/
def szField (w : Nat) : Nat := w / 2 ^ 40 % 2 ^ 8

/-- Bits 48..63 of a packed word (the `shmem_id` field). -/
def idField (w : Nat) : Nat := w / 2 ^ 48 % 2 ^ 16

/-- `impl From<u64> for SharedAddress` (transmute): unpack a 64-bit word
into the four fields.  Total: every word is accepted, including zero. -/
def SharedAddress.fromU64 (w : Nat) : SharedAddress :=
  ⟨offField w, padField w, szField w, idField w⟩

/-- lib.rs `impl FromPrimitive for SharedAddress`: `from_u64` returns
`None` on the all-zero word and the transmuted address otherwise. -/
def SharedAddress.fromU64Lib (w : Nat) : Option SharedAddress :=
  if w = 0 then none else some (SharedAddress.fromU64 w)

/-- `ObjectSize::to_u64`: `1u64.checked_shl(class)`, `None` when the
shift amount is ≥ 64. -/
def ObjectSize.toU64 (c : Nat) : Option Nat :=
  if c < 64 then some (2 ^ c) else none

/-- Number of binary digits of `m`, clipped to 64 (so that
`64 - bits64 m` is `u64::leading_zeros` for `m < 2^64`). -/
def bits64 (m : Nat) : Nat :=
  (List.range 64).foldl (fun acc i => if 2 ^ i ≤ m then i + 1 else acc) 0

/-- `usize::leading_zeros` on a 64-bit platform. -/
def leadingZeros64 (m : Nat) : Nat := 64 - bits64 m

/-- `ObjectSize::ceil(size)`: `64 - (size - 1).leading_zeros() as u8`.
The `size - 1` is wrapping `usize` subtraction (the crate only calls it
with `size ≥ 1`, where it is the ordinary difference). -/
def ObjectSize.ceil (n : Nat) : Nat :=
  64 - leadingZeros64 ((n + U64 - 1) % U64)

/-- `SharedAddressRange` (shared_address_range.rs): a packed address
together with an object size class. -/
structure SharedAddressRange where
  shmemId : Nat
  shmemSize : Nat
  objectOffset : Nat
  objectSize : Nat
deriving Repr, DecidableEq

/-- `SharedAddress::checked_add` (shared_address.rs): round the end
offset up to a size class and compare it with the segment's size class;
on success return the range starting at this address. -/
def SharedAddress.checkedAdd (a : SharedAddress) (c : Nat) : Option SharedAddressRange := do
  let sizeBytes ← ObjectSize.toU64 c
  let endClass := ObjectSize.ceil (a.objectOffset + sizeBytes)
  if endClass ≤ a.objectSize then
    some ⟨a.shmemId, a.objectSize, a.objectOffset, c⟩
  else
    none

/-- lib.rs `SharedAddress::checked_add`: add the object size to the
whole packed word and re-decode; `None` on `u64` overflow or when the
sum is the all-zero word. -/
def SharedAddress.checkedAddLib (a : SharedAddress) (c : Nat) : Option SharedAddress := do
  let sizeBytes ← ObjectSize.toU64 c
  let sum := a.toU64 + sizeBytes
  if sum < U64 then SharedAddress.fromU64Lib sum else none

/-- `AtomicSharedAddress::fetch_add` (atomic_shared_address.rs).  The
atomic cell is the word `w`.  Adds `2^c` to the word, decodes the old
word (total transmute) and validates via `checked_add`; on failure the
same amount is subtracted back.  Returns the result together with the
word left in the cell. -/
def AtomicSharedAddress.fetchAdd (w : Nat) (c : Nat) : Option SharedAddressRange × Nat :=
  match ObjectSize.toU64 c with
  | none => (none, w)
  | some s =>
    let w1 := (w + s) % U64
    let address := SharedAddress.fromU64 w
    let result := address.checkedAdd c
    match result with
    | none => (none, (w1 + U64 - s) % U64)
    | some r => (some r, w1)

/-- lib.rs `AtomicSharedAddress::fetch_add`: adds `2^c` to the word and
decodes the old word with the partial `from_u64` (zero ↦ `None`); when
the decode fails the same amount is subtracted back. -/
def AtomicSharedAddress.fetchAddLib (w : Nat) (c : Nat) : Option SharedAddress × Nat :=
  match ObjectSize.toU64 c with
  | none => (none, w)
  | some s =>
    let w1 := (w + s) % U64
    let result := SharedAddress.fromU64Lib w
    match result with
    | none => (none, (w1 + U64 - s) % U64)
    | some a => (some a, w1)

/-- lib.rs `AtomicSharedAddress::compare_and_swap` over `Option`
addresses (`None` encodes as the zero word): if the stored word equals
the encoding of `current` it is replaced by the encoding of `new`; the
decoded old word is returned together with the word left in the cell. -/
def AtomicSharedAddress.compareAndSwapLib (w : Nat) (current new : Option SharedAddress) :
    Option SharedAddress × Nat :=
  let cur := (current.map SharedAddress.toU64).getD 0
  let nw := (new.map SharedAddress.toU64).getD 0
  if w = cur then (SharedAddress.fromU64Lib w, nw) else (SharedAddress.fromU64Lib w, w)

/-- Pointwise update of a table modelled as a function. -/
def fupd {α : Type} (f : Nat → α) (i : Nat) (v : α) : Nat → α :=
  fun j => if j = i then v else f j

def MAX_SHMEMS : Nat := 10000

def MIN_OBJECT_SIZE : Nat := 8

/-- Outcome of the `alloc_shmem` probe loop. -/
inductive ProbeOut where
  | fuelOut : ProbeOut
  | fail : ProbeOut
  | found : Nat → ProbeOut
deriving Repr, DecidableEq

/-- The probe loop of `alloc_shmem`:
`while shmem_used[index].swap(true) { if MAX_SHMEMS <= index { return None } else { index += 1 } }`.
Returns the outcome, the updated `shmem_used` table, and the list of
indices at which the table was accessed (every `swap` is an access).
Structural fuel; the crate's loop always stops within
`MAX_SHMEMS + 1` iterations. -/
def allocProbe (used : Nat → Bool) (index : Nat) : Nat → ProbeOut × (Nat → Bool) × List Nat
  | 0 => (.fuelOut, used, [])
  | fuel + 1 =>
    let old := used index
    let used1 := fupd used index true
    if !old then (.found index, used1, [index])
    else if MAX_SHMEMS ≤ index then (.fail, used1, [index])
    else
      let r := allocProbe used1 (index + 1) fuel
      (r.1, r.2.1, index :: r.2.2)

/-- Sequential state of the lib.rs `ShmemAllocator`: the per-size-class
cursor words, the published-segment counter, the claim flags, and for
each created segment its byte size and whether it is installed in the
local segment table.  In this single-process model every segment created
by `alloc_shmem` is installed locally, and `get_shmem` on a slot that
was never created fails (the name slot is zeroed and cannot be opened). -/
structure AllocState where
  unused : Nat → Nat
  numShmems : Nat
  shmemUsed : Nat → Bool
  segSize : Nat → Nat
  segValid : Nat → Bool

def AllocState.init : AllocState :=
  ⟨fun _ => 0, 0, fun _ => false, fun _ => 0, fun _ => false⟩

/-- lib.rs `ShmemAllocator::get_shmem`: resolve a segment id to its byte
size (`get_size`).  The local table is consulted first; opening a
segment that was never created fails. -/
def ShmemAllocator.getShmem (st : AllocState) (id : Nat) : Option Nat :=
  if st.segValid id then some (st.segSize id) else none

/-- lib.rs `ShmemAllocator::get_shmem_name`: `None` when
`shmem_id > num_shmems`, otherwise the name slot at index `shmem_id`
(returned here as the index that is read). -/
def ShmemAllocator.getShmemName (numShmems id : Nat) : Option Nat :=
  if id > numShmems then none else some id

/-- lib.rs `ShmemAllocator::alloc_shmem`: create a segment of `size`
bytes, probe for a free claim slot starting at `num_shmems`, record the
size, install the handle locally, and bump `num_shmems`.  The returned
id is the probe index truncated to `u16`. -/
def ShmemAllocator.allocShmem (st : AllocState) (size : Nat) : Option (Nat × AllocState) :=
  match allocProbe st.shmemUsed st.numShmems (MAX_SHMEMS + 1) with
  | (.found i, used1, _) =>
    some (i % 2 ^ 16,
      { st with
        shmemUsed := used1
        segSize := fupd st.segSize i size
        segValid := fupd st.segValid i true
        numShmems := (st.numShmems + 1) % U64 })
  | _ => none

/-- One pass of the lib.rs `alloc_bytes` loop for size class `c`, with
structural fuel for the `loop`.  `none` means the fuel ran out; the
inner `Option SharedAddress` is the value `alloc_bytes` returns.
`get_shmem` is pure here, so the fast-path test re-evaluates it instead
of binding it once as the source does. -/
def allocBytesLoop (c : Nat) : Nat → AllocState → Option (Option SharedAddress × AllocState)
  | 0, _ => none
  | fuel + 1, st0 =>
    let fa := AtomicSharedAddress.fetchAddLib (st0.unused c) c
    let unusedAddr := fa.1
    let st1 := { st0 with unused := fupd st0.unused c fa.2 }
    let oldSize : Nat :=
      match unusedAddr with
      | some u => (ShmemAllocator.getShmem st1 u.shmemId).getD 0
      | none => 0
    let fast : Option SharedAddress :=
      match unusedAddr with
      | some u =>
        match ShmemAllocator.getShmem st1 u.shmemId with
        | some osz =>
          match u.checkedAddLib c with
          | some nu => if nu.objectOffset ≤ osz then some u else none
          | none => none
        | none => none
      | none => none
    match fast with
    | some u => some (some u, st1)
    | none =>
      match ObjectSize.toU64 c with
      | none => some (none, st1)
      | some sz =>
        let newSize := max sz (oldSize * 2)
        match ShmemAllocator.allocShmem st1 newSize with
        | none => some (none, st1)
        | some (newId, st2) =>
          let result : SharedAddress := ⟨0, 0, c, newId⟩
          match (if sz < 2 ^ 32 then some sz else none) with
          | none => some (none, st2)
          | some off =>
            let newUnused : SharedAddress := ⟨off, 0, c, newId⟩
            let nextUnused := unusedAddr.bind (fun u => u.checkedAddLib c)
            let cas := AtomicSharedAddress.compareAndSwapLib (st2.unused c)
              nextUnused (some newUnused)
            let st3 := { st2 with unused := fupd st2.unused c cas.2 }
            if cas.1 = nextUnused then some (some result, st3)
            else allocBytesLoop c fuel st3

/-- lib.rs `ShmemAllocator::alloc_bytes(size)`: round the request up to
a size class (minimum 8 bytes) and run the allocation loop on that
class's cursor. -/
def ShmemAllocator.allocBytes (st : AllocState) (size : Nat) (fuel : Nat) :
    Option (Option SharedAddress × AllocState) :=
  allocBytesLoop (ObjectSize.ceil (max MIN_OBJECT_SIZE size)) fuel st

/-- Byte ranges of two allocated addresses overlap: same segment and
the intervals `[offset, offset + 2^object_size)` intersect. -/
def addrRangesOverlap (a b : SharedAddress) : Prop :=
  a.shmemId = b.shmemId ∧
    max a.objectOffset b.objectOffset <
      min (a.objectOffset + 2 ^ a.objectSize) (b.objectOffset + 2 ^ b.objectSize)

instance (a b : SharedAddress) : Decidable (addrRangesOverlap a b) := by
  unfold addrRangesOverlap; infer_instance

/-- Three successive `alloc_bytes(2^31)` calls from a fresh allocator,
returning the three addresses handed out. -/
def allocThrice : Option SharedAddress × Option SharedAddress × Option SharedAddress :=
  match ShmemAllocator.allocBytes AllocState.init (2 ^ 31) 3 with
  | some (a1, st1) =>
    match ShmemAllocator.allocBytes st1 (2 ^ 31) 3 with
    | some (a2, st2) =>
      match ShmemAllocator.allocBytes st2 (2 ^ 31) 3 with
      | some (a3, _) => (a1, a2, a3)
      | none => (none, none, none)
    | none => (none, none, none)
  | none => (none, none, none)

/-! ## SharedOption (shared_option.rs) -/

/-- State of a `SharedOption<T>` cell: the data bytes interpreted as a
`T`, and the `occupied` state byte (`UNOCCUPIED = 0`, `RESERVED = 1`,
`OCCUPIED = 2`). -/
structure SharedOptionState (α : Type) where
  data : α
  occupied : Nat
deriving Repr, DecidableEq

/-- `SharedOption::put`: CAS `occupied` from `UNOCCUPIED` to `RESERVED`;
on success volatile-write the value and store `OCCUPIED`, returning
`Ok(())`; on CAS failure return `Err(value)` with the cell untouched.
The CAS, write and store are one sequential step here. -/
def SharedOption.put {α : Type} (s : SharedOptionState α) (v : α) :
    Except α Unit × SharedOptionState α :=
  if s.occupied = 0 then (.ok (), ⟨v, 2⟩) else (.error v, s)

/-- `SharedOption::take`: CAS `occupied` from `OCCUPIED` to `RESERVED`;
on success volatile-read the value and store `UNOCCUPIED`; on CAS
failure return `None` with the cell untouched. -/
def SharedOption.take {α : Type} (s : SharedOptionState α) :
    Option α × SharedOptionState α :=
  if s.occupied = 2 then (some s.data, ⟨s.data, 0⟩) else (none, s)

/-- `SharedOption::volatile_peek`: the cell is readable iff the state
byte is `OCCUPIED`. -/
def SharedOption.volatilePeek {α : Type} (s : SharedOptionState α) : Bool :=
  s.occupied == 2

/-! ## SharedChannel (shared_channel.rs)

A ring is one generation of the channel.  The chain of rings is a list;
`grownFull r = true` means the ring's `grown` cell is `OCCUPIED` and its
successor is the next entry of the list.  The `start`/`finish` counters
are `usize` words (wrapping arithmetic mod `2^64`).  Handles hold an
index into the chain as their snapshot. -/

structure Ring (α : Type) where
  buffer : List (SharedOptionState α)
  start : Nat
  finish : Nat
  grownFull : Bool
deriving Repr, DecidableEq

/-- `SharedSender::try_send`, sequential, with structural fuel for the
retry loop.  `allocOk` tells whether `SharedChannel::try_new` (the
allocation of a grown ring) succeeds.  Returns the `Result`, the final
chain, and the sender's final snapshot index; `none` when the fuel runs
out or an index is unresolvable (a zero-capacity ring, where the source
would divide by zero). -/
def trySendLoop {α : Type} [Inhabited α] :
    Nat → List (Ring α) → Nat → α → Bool → Option (Except α Unit × List (Ring α) × Nat)
  | 0, _, _, _, _ => none
  | fuel + 1, rings, cur, v, allocOk =>
    match rings.get? cur with
    | none => none
    | some r =>
      let capacity := r.buffer.length
      if r.grownFull then trySendLoop fuel rings (cur + 1) v allocOk
      else
        let index := r.finish
        let r1 := { r with finish := (r.finish + 1) % U64 }
        let rings1 := rings.set cur r1
        match r1.buffer.get? (index % capacity) with
        | none => none
        | some slot =>
          match SharedOption.put slot v with
          | (.ok _, slot1) =>
            let r2 := { r1 with buffer := r1.buffer.set (index % capacity) slot1 }
            some (.ok (), rings1.set cur r2, cur)
          | (.error unsent, _) =>
            if allocOk then
              let grown : Ring α := ⟨List.replicate (capacity * 2) ⟨default, 0⟩, 0, 0, false⟩
              let r2 := { r1 with finish := (r1.finish + U64 - 1) % U64, grownFull := true }
              trySendLoop fuel (rings1.set cur r2 ++ [grown]) cur unsent allocOk
            else
              some (.error unsent, rings1, cur)

/-- `SharedReceiver::try_recv`, sequential, with structural fuel for the
retry loop.  Returns the received value (if any), the final chain, and
the receiver's final snapshot index. -/
def tryRecvLoop {α : Type} [Inhabited α] :
    Nat → List (Ring α) → Nat → Option (Option α × List (Ring α) × Nat)
  | 0, _, _ => none
  | fuel + 1, rings, cur =>
    match rings.get? cur with
    | none => none
    | some r =>
      let capacity := r.buffer.length
      let index := r.start
      let r1 := { r with start := (r.start + 1) % U64 }
      let rings1 := rings.set cur r1
      match r1.buffer.get? (index % capacity) with
      | none => none
      | some slot =>
        match SharedOption.take slot with
        | (some result, slot1) =>
          let r2 := { r1 with buffer := r1.buffer.set (index % capacity) slot1 }
          let r3 :=
            if capacity ≤ index then
              { r2 with
                start := (r2.start + U64 - capacity) % U64
                finish := (r2.finish + U64 - capacity) % U64 }
            else r2
          some (some result, rings1.set cur r3, cur)
        | (none, _) =>
          if r1.grownFull && index == r1.finish then
            tryRecvLoop fuel rings1 (cur + 1)
          else
            let r2 := { r1 with start := (r1.start + U64 - 1) % U64 }
            some (none, rings1.set cur r2, cur)

/-! ## SharedVec (shared_vec.rs) -/

/-- `Volatile::slice_from_volatile_bytes(bytes, length)`: succeeds,
yielding a typed slice of `length` elements, iff
`size_of::<T>() * length ≤ bytes.len()`.  `byteLen` is the length of the
byte slice; the result is the length of the typed slice. -/
def sliceFromVolatileBytes (byteLen sizeT length : Nat) : Option Nat :=
  if sizeT * length ≤ byteLen then some length else none

/-- `SharedVec::get_in`: resolve the vector's bytes through the
allocator and view them as a typed slice.  `getBytes` is the byte-slice
length `alloc.get_bytes(self.address)` yields, `none` when the segment
cannot be resolved; `length` is the handle's stored length. -/
def SharedVec.getIn (getBytes : Option Nat) (length sizeT : Nat) : Option Nat :=
  match getBytes with
  | none => none
  | some byteLen => sliceFromVolatileBytes byteLen sizeT length

/-- `<SharedVec as Deref>::deref`: the typed slice from `try_get`, or
the empty slice when resolution fails.  Returns the slice's length. -/
def SharedVec.derefLen (getBytes : Option Nat) (length sizeT : Nat) : Nat :=
  match SharedVec.getIn getBytes length sizeT with
  | some l => l
  | none => 0

/-! ## Helper lemmas -/

/-- Unpacking a packed word recovers the fields. -/
theorem toU64_fields (a : SharedAddress) (h : a.wf) :
    offField a.toU64 = a.objectOffset ∧ padField a.toU64 = a.padding ∧
      szField a.toU64 = a.objectSize ∧ idField a.toU64 = a.shmemId := by
  obtain ⟨h1, h2, h3, h4⟩ := h
  simp only [SharedAddress.toU64, offField, padField, szField, idField]
  refine ⟨?_, ?_, ?_, ?_⟩ <;> omega

/-- Adding `2^c`, `c ≤ 39`, to a word whose padding byte is zero does
not change bits 40 and above and does not overflow 64 bits. -/
theorem add_pow_preserves_high (w c : Nat) (hw : w < U64) (hc : c ≤ 39)
    (hp : padField w = 0) :
    (w + 2 ^ c) / 2 ^ 40 = w / 2 ^ 40 ∧ w + 2 ^ c < U64 := by
  have hs : 2 ^ c ≤ 2 ^ 39 := Nat.pow_le_pow_right (by norm_num) hc
  have hr : w % 2 ^ 40 < 2 ^ 32 := by
    have hm : w % (2 ^ 32 * 2 ^ 8) = w % 2 ^ 32 + 2 ^ 32 * (w / 2 ^ 32 % 2 ^ 8) :=
      Nat.mod_mul
    simp only [padField] at hp
    rw [show (2 : Nat) ^ 40 = 2 ^ 32 * 2 ^ 8 by norm_num, hm, hp]
    simpa using Nat.mod_lt w (by norm_num : (0 : Nat) < 2 ^ 32)
  have hq := Nat.div_add_mod w (2 ^ 40)
  have hz : (w % 2 ^ 40 + 2 ^ c) / 2 ^ 40 = 0 := Nat.div_eq_of_lt (by omega)
  constructor
  · conv_lhs => rw [← hq]
    rw [Nat.add_assoc, Nat.mul_add_div (by norm_num : 0 < 2 ^ 40), hz]
    omega
  · simp only [U64] at *
    omega

/-- Bits 48+ are extracted through bits 40+. -/
theorem idField_through_div40 (w : Nat) : idField w = w / 2 ^ 40 / 2 ^ 8 % 2 ^ 16 := by
  simp only [idField, Nat.div_div_eq_div_mul]
  norm_num

/-! ## C2: packed-address / u64 round trip -/

/-- C2 counterexample: the all-zero `SharedAddress` packs to the zero
word, and the lib.rs `from_u64` maps the zero word to `None`, not back
to the address: the round trip fails at the all-zero pattern. -/
theorem zero_address_roundtrip_fails :
    SharedAddress.toU64 ⟨0, 0, 0, 0⟩ = 0 ∧
    SharedAddress.fromU64Lib (SharedAddress.toU64 ⟨0, 0, 0, 0⟩) = none := by
  decide

/-- C2 (amended): for every well-formed `SharedAddress`, the total
transmute conversions round-trip (`from(to(a)) = a`, including the
all-zero pattern), and the lib.rs `FromPrimitive::from_u64` round-trips
whenever the packed word is nonzero (the zero word maps to `None`). -/
theorem sharedAddress_u64_roundtrip (a : SharedAddress) (h : a.wf) :
    SharedAddress.fromU64 a.toU64 = a ∧
    (a.toU64 ≠ 0 → SharedAddress.fromU64Lib a.toU64 = some a) := by
  have hf := toU64_fields a h
  have hround : SharedAddress.fromU64 a.toU64 = a := by
    obtain ⟨f1, f2, f3, f4⟩ := hf
    cases a
    simp only [SharedAddress.fromU64, SharedAddress.mk.injEq]
    exact ⟨f1, f2, f3, f4⟩
  refine ⟨hround, fun hz => ?_⟩
  rw [SharedAddress.fromU64Lib, if_neg hz, hround]

/-- Witness for `sharedAddress_u64_roundtrip` at a concrete address. -/
theorem sharedAddress_u64_roundtrip_witness :
    SharedAddress.wf ⟨1, 2, 3, 4⟩ ∧
    SharedAddress.fromU64 (SharedAddress.toU64 ⟨1, 2, 3, 4⟩) = ⟨1, 2, 3, 4⟩ :=
  ⟨by decide, (sharedAddress_u64_roundtrip ⟨1, 2, 3, 4⟩ (by decide)).1⟩

/-! ## C3: offset-confined fetch-add -/

/-- C3 counterexample: at the word packing `(offset 0, padding 0,
segment size class 41, id 0)` with object size class 40, `fetch_add`
succeeds (the new offset `2^40 ≤ 2^41` fits the segment) yet the
stored word's segment-size-class field changes from 41 to 42: the
addition landed on the size field, not the offset field. -/
theorem fetchAdd_large_class_changes_size_field :
    padField (41 * 2 ^ 40) = 0 ∧ szField (41 * 2 ^ 40) = 41 ∧
    (AtomicSharedAddress.fetchAdd (41 * 2 ^ 40) 40).1.isSome = true ∧
    szField (AtomicSharedAddress.fetchAdd (41 * 2 ^ 40) 40).2 = 42 := by
  decide

/-- C3 (amended): for every word with zero padding byte and every
object size class `s ≤ 39` (so the added `2^s` lies at or below the
padding byte), `fetch_add` leaves the segment-id and
segment-size-class fields unchanged; when it returns `None` it
subtracts the amount back, restoring the stored word exactly; when it
returns `Some` the stored word advanced by exactly `2^s`. -/
theorem fetchAdd_offset_confined (w c : Nat) (hw : w < U64) (hc : c ≤ 39)
    (hp : padField w = 0) :
    (szField (AtomicSharedAddress.fetchAdd w c).2 = szField w ∧
     idField (AtomicSharedAddress.fetchAdd w c).2 = idField w) ∧
    ((AtomicSharedAddress.fetchAdd w c).1 = none →
      (AtomicSharedAddress.fetchAdd w c).2 = w) ∧
    ((AtomicSharedAddress.fetchAdd w c).1.isSome →
      (AtomicSharedAddress.fetchAdd w c).2 = w + 2 ^ c) := by
  obtain ⟨hdiv, hlt⟩ := add_pow_preserves_high w c hw hc hp
  have hmod : (w + 2 ^ c) % U64 = w + 2 ^ c := Nat.mod_eq_of_lt hlt
  have hc64 : c < 64 := by omega
  have hrestore : (w + 2 ^ c + U64 - 2 ^ c) % U64 = w := by
    have : 2 ^ c ≤ 2 ^ 39 := Nat.pow_le_pow_right (by norm_num) hc
    simp only [U64] at *
    omega
  simp only [AtomicSharedAddress.fetchAdd, ObjectSize.toU64, if_pos hc64]
  cases hres : (SharedAddress.fromU64 w).checkedAdd c <;>
    simp only [hres, hmod, hrestore]
  · simp
  · refine ⟨⟨?_, ?_⟩, by simp, by simp⟩
    · simp only [szField, hdiv]
    · rw [idField_through_div40, idField_through_div40, hdiv]

/-- Witness for `fetchAdd_offset_confined` at the word
`(offset 0, padding 0, size class 5, id 1)` and object class 3. -/
theorem fetchAdd_offset_confined_witness :
    (5 * 2 ^ 40 + 2 ^ 48 < U64 ∧ (3 : Nat) ≤ 39 ∧ padField (5 * 2 ^ 40 + 2 ^ 48) = 0) ∧
    szField (AtomicSharedAddress.fetchAdd (5 * 2 ^ 40 + 2 ^ 48) 3).2 =
      szField (5 * 2 ^ 40 + 2 ^ 48) :=
  ⟨⟨by decide, by decide, by decide⟩,
    (fetchAdd_offset_confined (5 * 2 ^ 40 + 2 ^ 48) 3 (by decide) (by decide) (by decide)).1.1⟩

/-! ## C4: SharedOption transition contract -/

/-- C4: `put(v)` returns `Ok` and leaves the cell Full containing `v`
exactly when the state byte was Empty (0), and otherwise returns
`Err(v)` with the cell unchanged; `take()` returns the stored value and
leaves the state byte Empty exactly when it was Full (2), and otherwise
returns `None` with the cell unchanged. -/
theorem sharedOption_state_contract (α : Type) (s : SharedOptionState α) (v : α) :
    ((SharedOption.put s v).1 = .ok () ∧ (SharedOption.put s v).2 = ⟨v, 2⟩ ↔
      s.occupied = 0) ∧
    (s.occupied ≠ 0 → SharedOption.put s v = (.error v, s)) ∧
    ((SharedOption.take s).1 = some s.data ∧ (SharedOption.take s).2 = ⟨s.data, 0⟩ ↔
      s.occupied = 2) ∧
    (s.occupied ≠ 2 → SharedOption.take s = (none, s)) := by
  simp only [SharedOption.put, SharedOption.take]
  by_cases h0 : s.occupied = 0 <;> by_cases h2 : s.occupied = 2 <;>
    simp [h0, h2]

/-- Witness for `sharedOption_state_contract` on a Reserved cell. -/
theorem sharedOption_state_contract_witness :
    (1 : Nat) ≠ 0 ∧
    SharedOption.put (⟨7, 1⟩ : SharedOptionState Nat) 5 = (.error 5, ⟨7, 1⟩) :=
  ⟨by decide, (sharedOption_state_contract Nat ⟨7, 1⟩ 5).2.1 (by decide)⟩

/-! ## C10: null convention -/

/-- C10: the all-zero word is the unique null address: lib.rs
`from_u64` returns `None` exactly on input 0 and `Some` of the
transmuted address otherwise; consequently the lib.rs `fetch_add`
returns `None` exactly when the word it read was all-zero, and in that
case the addition has been undone, leaving the stored word unchanged. -/
theorem null_convention_fetchAddLib (w c : Nat) (hc : c < 64) :
    (SharedAddress.fromU64Lib w = none ↔ w = 0) ∧
    (w ≠ 0 → SharedAddress.fromU64Lib w = some (SharedAddress.fromU64 w)) ∧
    ((AtomicSharedAddress.fetchAddLib w c).1 = none ↔ w = 0) ∧
    ((AtomicSharedAddress.fetchAddLib w c).1 = none →
      (AtomicSharedAddress.fetchAddLib w c).2 = w) := by
  have hs : 2 ^ c < U64 := by
    simp only [U64]
    exact Nat.pow_lt_pow_right (by norm_num) hc
  simp only [AtomicSharedAddress.fetchAddLib, ObjectSize.toU64, if_pos hc]
  by_cases h0 : w = 0
  · subst h0
    have hnone : SharedAddress.fromU64Lib 0 = none := by simp [SharedAddress.fromU64Lib]
    simp only [hnone]
    refine ⟨by simp [hnone], by simp, by simp, fun _ => ?_⟩
    simp only [U64] at *
    omega
  · simp [SharedAddress.fromU64Lib, h0]

/-- Witness for `null_convention_fetchAddLib` at the zero word. -/
theorem null_convention_fetchAddLib_witness :
    (3 : Nat) < 64 ∧ ((AtomicSharedAddress.fetchAddLib 0 3).1 = none ↔ (0 : Nat) = 0) :=
  ⟨by decide, (null_convention_fetchAddLib 0 3 (by decide)).2.2.1⟩

/-! ## C1: allocation disjointness -/

/-- C1 (failing run): from a fresh allocator, three successive
`alloc_bytes(2^31)` calls all succeed, all land in segment 0, and the
first and third calls both return object offset 0: their byte ranges
`[0, 2^31)` coincide.  The second call already overflows the cursor's
32-bit offset field into the padding byte; the wrapped offset then
passes the `offset <= old_size` bound check, so the cursor re-issues
offsets it already handed out. -/
theorem alloc_bytes_overlap_at_offset_wrap :
    allocThrice = (some ⟨0, 0, 31, 0⟩, some ⟨2 ^ 31, 0, 31, 0⟩, some ⟨0, 1, 31, 0⟩) ∧
    addrRangesOverlap ⟨0, 0, 31, 0⟩ ⟨0, 1, 31, 0⟩ := by
  constructor
  · rfl
  · decide

/-! ## C7: bounded probe in segment allocation -/

/-- C7 (failing run): with every claim flag set and
`num_shmems = MAX_SHMEMS = 10000` (a full table), the probe of
`alloc_shmem` does return `None`, but the very first `swap` it performs
touches `shmem_used[10000]`, one past the last valid index 9999: the
access is not at an index strictly less than `MAX_SHMEMS`, because the
bound is only checked after the access. -/
theorem allocProbe_touches_one_past_end :
    (allocProbe (fun _ => true) MAX_SHMEMS (MAX_SHMEMS + 1)).1 = ProbeOut.fail ∧
    (allocProbe (fun _ => true) MAX_SHMEMS (MAX_SHMEMS + 1)).2.2 = [MAX_SHMEMS] ∧
    ¬ MAX_SHMEMS < MAX_SHMEMS := by
  constructor
  · rfl
  · exact ⟨rfl, by omega⟩

/-! ## C8: only published segments resolve -/

/-- C8 counterexample: with `num_shmems = 0` no segment is published,
yet `get_shmem_name(0)` returns `Some` (it reads the unpublished name
slot 0), because the guard is `shmem_id > num_shmems` rather than
`shmem_id >= num_shmems`: the claim's `None` for every
`shmem_id ≥ num_shmems` fails at `shmem_id = num_shmems`. -/
theorem getShmemName_at_count_is_some :
    ShmemAllocator.getShmemName 0 0 = some 0 ∧ ¬ (0 : Nat) < 0 := by
  exact ⟨rfl, by omega⟩

/-- C8 (amended): `get_shmem_name(shmem_id)` returns `Some` exactly for
`shmem_id ≤ num_shmems` — the published ids and additionally the
boundary id equal to the counter — and `None` exactly for
`shmem_id > num_shmems`. -/
theorem getShmemName_published_boundary (numShmems id : Nat) :
    (ShmemAllocator.getShmemName numShmems id = none ↔ numShmems < id) ∧
    ((ShmemAllocator.getShmemName numShmems id).isSome ↔ id ≤ numShmems) := by
  constructor
  · simp only [ShmemAllocator.getShmemName]
    split_ifs with h
    · simpa using h
    · simp only [reduceCtorEq, false_iff]
      omega
  · simp only [ShmemAllocator.getShmemName]
    split_ifs with h
    · simp only [Option.isSome_none, Bool.false_eq_true, false_iff]
      omega
    · simp only [Option.isSome_some, true_iff]
      omega

/-! ## C9: SharedVec deref fallback -/

/-- C9: dereferencing a `SharedVec` never fails: when `try_get` cannot
resolve the vector's bytes the deref is the empty slice (length 0), and
when it resolves, the deref is a slice of exactly `len()` elements. -/
theorem sharedVec_deref_len (getBytes : Option Nat) (length sizeT : Nat) :
    (SharedVec.getIn getBytes length sizeT = none →
      SharedVec.derefLen getBytes length sizeT = 0) ∧
    (∀ l, SharedVec.getIn getBytes length sizeT = some l →
      l = length ∧ SharedVec.derefLen getBytes length sizeT = length) := by
  constructor
  · intro h
    simp [SharedVec.derefLen, h]
  · intro l h
    have hl : l = length := by
      cases getBytes with
      | none => simp [SharedVec.getIn] at h
      | some n =>
        simp only [SharedVec.getIn, sliceFromVolatileBytes] at h
        by_cases hle : sizeT * length ≤ n <;> simp [hle] at h
        omega
    exact ⟨hl, by simp [SharedVec.derefLen, h, hl]⟩

/-- Witness for `sharedVec_deref_len`: a vector of 2 elements of size 4
over an 8-byte allocation resolves to a slice of length 2. -/
theorem sharedVec_deref_len_witness :
    SharedVec.derefLen (some 8) 2 4 = 2 :=
  ((sharedVec_deref_len (some 8) 2 4).2 2 (by decide)).2

/-! ## C5: sender undo on failed put -/

/-- C5 counterexample: on a saturated one-slot ring whose `finish` is 1
on entry, `try_send` with ring growth failing (allocation failure)
returns `Err` with `finish` left at 2: the `finish.fetch_add(1)` that
preceded the failed `put` is not undone on this return path. -/
theorem trySend_err_leaves_finish_bumped :
    trySendLoop 2 [(⟨[⟨7, 2⟩], 0, 1, false⟩ : Ring Nat)] 0 5 false =
      some (.error 5, [⟨[⟨7, 2⟩], 0, 2, false⟩], 0) ∧
    (2 : Nat) ≠ 1 := by
  constructor
  · rfl
  · omega

/-- C5 (amended): when the `put` into `buffer[index % capacity]` fails
and the channel grows successfully, the preceding `finish.fetch_add(1)`
is undone by `finish.fetch_sub(1)` before `try_send` retries — the
saturated ring's `finish` ends equal to its entry value and the value is
sent into the grown ring; when growing fails, `try_send` returns `Err`
and leaves `finish` incremented by one. -/
theorem trySend_undo_on_grow (α : Type) [Inhabited α] (r : Ring α) (v : α)
    (slot : SharedOptionState α)
    (hgrown : r.grownFull = false)
    (hcap : 0 < r.buffer.length)
    (hslot : r.buffer.get? (r.finish % r.buffer.length) = some slot)
    (hocc : slot.occupied ≠ 0)
    (hfin : r.finish < U64) :
    trySendLoop 4 [r] 0 v true =
      some (.ok (), [⟨r.buffer, r.start, r.finish, true⟩,
        ⟨(List.replicate (r.buffer.length * 2) (⟨default, 0⟩ : SharedOptionState α)).set 0 ⟨v, 2⟩,
          0, 1, false⟩], 1) ∧
    trySendLoop 4 [r] 0 v false =
      some (.error v, [⟨r.buffer, r.start, (r.finish + 1) % U64, false⟩], 0) := by
  obtain ⟨buf, sta, fin, gf⟩ := r
  simp only at hgrown hcap hslot hocc hfin
  subst hgrown
  have hput : SharedOption.put slot v = (.error v, slot) := by
    simp [SharedOption.put, hocc]
  have hundo : ((fin + 1) % U64 + U64 - 1) % U64 = fin := by
    simp only [U64] at *
    omega
  have hrep : (List.replicate (buf.length * 2) (⟨default, 0⟩ : SharedOptionState α)).get?
      (0 % (buf.length * 2)) = some ⟨default, 0⟩ := by
    rw [Nat.zero_mod, List.get?_eq_get (by simpa using hcap)]
    simp
  have hput2 : SharedOption.put (⟨default, 0⟩ : SharedOptionState α) v = (.ok (), ⟨v, 2⟩) := by
    simp [SharedOption.put]
  constructor
  · simp only [trySendLoop, List.get?, hslot, hput, hundo, hrep, hput2, if_true,
      Bool.true_eq_false, List.set, List.length_replicate]
    simp [Nat.mod_eq_of_lt, U64]
  · simp only [trySendLoop, List.get?, hslot, hput, List.set]
    simp

/-- Witness for `trySend_undo_on_grow`: growing a saturated one-slot
ring sends the value into the new two-slot ring and restores `finish`. -/
theorem trySend_undo_on_grow_witness :
    (0 : Nat) < 1 ∧
    trySendLoop 4 [(⟨[⟨7, 2⟩], 0, 1, false⟩ : Ring Nat)] 0 5 true =
      some (.ok (), [⟨[⟨7, 2⟩], 0, 1, true⟩,
        ⟨(List.replicate 2 (⟨0, 0⟩ : SharedOptionState Nat)).set 0 ⟨5, 2⟩, 0, 1, false⟩], 1) :=
  ⟨Nat.zero_lt_one,
    (trySend_undo_on_grow Nat ⟨[⟨7, 2⟩], 0, 1, false⟩ 5 ⟨7, 2⟩ rfl (by decide) (by decide)
      (by decide) (by decide)).1⟩

/-! ## C6: try_recv idempotent on an empty channel -/

/-- C6: on a ring with every buffer slot Empty and the `grown` cell
Empty, `try_recv` returns `None` and leaves the chain exactly as it
was: the `start.fetch_add(1)` is undone by `start.fetch_sub(1)` and
`finish` is never touched, so repeated calls keep returning `None`
with no state change. -/
theorem tryRecv_empty_idempotent (α : Type) [Inhabited α] (r : Ring α)
    (hcap : 0 < r.buffer.length)
    (hempty : ∀ s ∈ r.buffer, s.occupied = 0)
    (hgrown : r.grownFull = false)
    (hstart : r.start < U64) :
    tryRecvLoop 1 [r] 0 = some (none, [r], 0) := by
  obtain ⟨buf, sta, fin, gf⟩ := r
  simp only at hcap hempty hgrown hstart
  subst hgrown
  obtain ⟨slot, hslot⟩ : ∃ slot, buf.get? (sta % buf.length) = some slot := by
    cases hg : buf.get? (sta % buf.length) with
    | none =>
      rw [List.get?_eq_none] at hg
      exact absurd hg (by have := Nat.mod_lt sta hcap; omega)
    | some s => exact ⟨s, rfl⟩
  have hocc : slot.occupied = 0 := hempty slot (List.get?_mem hslot)
  have htake : SharedOption.take slot = (none, slot) := by
    simp [SharedOption.take, hocc]
  simp only [tryRecvLoop, List.get?, hslot, htake, Bool.false_and, if_neg,
    Bool.false_eq_true, not_false_iff, List.set]
  have : ((sta + 1) % U64 + U64 - 1) % U64 = sta := by
    simp only [U64] at *
    omega
  simp [this]

/-- Witness for `tryRecv_empty_idempotent` on a fresh one-slot ring. -/
theorem tryRecv_empty_idempotent_witness :
    (0 : Nat) < 1 ∧
    tryRecvLoop 1 [(⟨[⟨0, 0⟩], 0, 0, false⟩ : Ring Nat)] 0 =
      some (none, [⟨[⟨0, 0⟩], 0, 0, false⟩], 0) :=
  ⟨Nat.zero_lt_one,
    tryRecv_empty_idempotent Nat ⟨[⟨0, 0⟩], 0, 0, false⟩ (by decide) (by decide) rfl
      (by decide)⟩

end SharedData
